import Mathlib

/-!
# Verification of the XMLTableEditor tabular XML document model

This file gives a shallow embedding of the `XMLWorker` class of the
XMLTableEditor repository (`xmlworker.h` / the worker translation unit) and
proves, or refutes, the behavioural claims made about it.

Modelling conventions:
* The XML documents handled by the worker have the fixed shape described by
  the file-format contract: a root element containing `table` elements, each
  containing `row` elements, each containing `cell` elements with a text
  payload.  `QDomDocument` is modelled by `Option Doc` (`none` = a document
  with no root element, which is what a default-constructed or cleared
  `QDomDocument` is); on this shape Qt's `elementsByTagName` (which scans
  descendants) coincides with scanning the direct children, which is how it
  is modelled here.
* A missing XML attribute and Qt's `QDomElement::attribute` defaulting are
  modelled by `Option String` plus `attrOf` (Qt returns `""` for an absent
  attribute).
* `QTableWidget` is modelled by `Grid`; a null `QTableWidget*` is `none`.
* Machine `int` row indices are modelled by `Int`.
* `QDomDocument::setContent` is an external Qt call; `LoadXMLFile` is
  therefore parametric in the parse function.  Qt's `setContent` clears the
  document before parsing, so a failed parse leaves an empty document; the
  model reflects this.  `qtSetContent` instantiates the parameter with the
  executable parser `parseXML` defined below (the line/column/message of the
  error report are Qt-internal and stand in here as fixed values; no claim
  depends on them, and the claim about their propagation is settled
  parametrically).
* `qDebug` diagnostic output of `LoadXMLFile` is modelled as a returned list
  of log lines.  The log of the other operations is not observed by any
  claim and is omitted.
-/

set_option maxRecDepth 4000

namespace XT

/-! ## Document model (the tree held by `QDomDocument`) -/

/-- One `cell` element: optional `name` attribute and text payload. -/
structure Cell where
  name : Option String
  text : String
deriving Repr, DecidableEq

/-- One `row` element: a list of `cell` children in document order. -/
structure Row where
  cells : List Cell
deriving Repr, DecidableEq

/-- One `table` element: optional `name` attribute and `row` children. -/
structure Table where
  name : Option String
  rows : List Row
deriving Repr, DecidableEq

/-- A parsed document: the root element's tag and its `table` children. -/
structure Doc where
  rootTag : String
  tables : List Table
deriving Repr, DecidableEq

/-- `QDomElement::attribute("name")`: the attribute value, or `""` when the
attribute is absent. -/
def attrOf (a : Option String) : String := a.getD ""

/-! ## `XMLWorker` private helpers, translated from the source -/

/-- Loop body of `XMLWorker::ParseXMLStructure`: walk the `table` elements in
document order and append each non-empty `name` attribute. -/
def collectTableNames : List Table → List String
  | [] => []
  | t :: ts =>
    if (attrOf t.name).isEmpty then collectTableNames ts
    else attrOf t.name :: collectTableNames ts

/-- `XMLWorker::ParseXMLStructure` (the table-name snapshot it stores into
`AvailableTableNames`). -/
def ParseXMLStructure (d : Doc) : List String := collectTableNames d.tables

/-- The search loop of `XMLWorker::FindTableElement`, returning the position
of the first `table` element whose `name` attribute compares equal. -/
def findTableIdxAux (p : Table → Bool) : List Table → Option Nat
  | [] => none
  | t :: ts => if p t then some 0 else (findTableIdxAux p ts).map (· + 1)

/-- Index of the table `XMLWorker::FindTableElement` returns (the DOM
reference it hands back is the element at this position). -/
def FindTableIdx (tables : List Table) (tableName : String) : Option Nat :=
  findTableIdxAux (fun t => attrOf t.name == tableName) tables

/-- `XMLWorker::FindTableElement`: first `table` element with matching
`name` attribute, `none` for the null element. -/
def FindTableElement (d : Doc) (tableName : String) : Option Table :=
  match FindTableIdx d.tables tableName with
  | none => none
  | some i => d.tables[i]?

/-- Header chosen for cell number `i` (0-based) of the first row in
`XMLWorker::ExtractColumnHeaders`: the cell's `name` attribute, or the
placeholder `Column_<i+1>` when that attribute is empty/absent. -/
def headerOfCell (i : Nat) (c : Cell) : String :=
  if (attrOf c.name).isEmpty then "Column_" ++ toString (i + 1) else attrOf c.name

/-- The indexed loop over the first row's cells in
`XMLWorker::ExtractColumnHeaders`. -/
def headersLoop : Nat → List Cell → List String
  | _, [] => []
  | i, c :: cs => headerOfCell i c :: headersLoop (i + 1) cs

/-- `XMLWorker::ExtractColumnHeaders`: headers come from the first `row`
element only; a table with no rows has no headers. -/
def ExtractColumnHeaders (t : Table) : List String :=
  match t.rows with
  | [] => []
  | firstRow :: _ => headersLoop 0 firstRow.cells

/-- `XMLWorker::ExtractTableRows`: every row's cell texts, positionally, in
document order. -/
def ExtractTableRows (t : Table) : List (List String) :=
  t.rows.map (fun r => r.cells.map (fun c => c.text))

/-- The cell-construction loop of `XMLWorker::CreateRowElement`: one cell per
column header, named by the header, with the row value at that position or
`""` when the supplied row is shorter. -/
def buildCells (rowData : List String) : Nat → List String → List Cell
  | _, [] => []
  | i, h :: hs => { name := some h, text := rowData.getD i "" } :: buildCells rowData (i + 1) hs

/-- `XMLWorker::CreateRowElement`. -/
def CreateRowElement (rowData columnHeaders : List String) : Row :=
  ⟨buildCells rowData 0 columnHeaders⟩

/-- The row-replacement core of `XMLWorker::UpdateCompleteTable`: after the
removal loop has emptied the table, append one freshly built row per entry.
This is the `ReplaceRows(Table, newRows, headers)` operation of the spec. -/
def appendNewRows (headers : List String) : Table → List (List String) → Table
  | t, [] => t
  | t, rd :: rds =>
    appendNewRows headers { t with rows := t.rows ++ [CreateRowElement rd headers] } rds

/-- `ReplaceRows`: the removal `while` loop of `UpdateCompleteTable` (which
pops the live row list until it is empty) followed by the append loop. -/
def ReplaceRows (t : Table) (newRows : List (List String)) (headers : List String) : Table :=
  appendNewRows headers { t with rows := [] } newRows

/-! ## The caller-supplied grid (`QTableWidget`) -/

/-- Model of a `QTableWidget`: `headers` holds `horizontalHeaderItem` per
column (`none` = no header item), `cells` holds `item(row, col)` per cell
(`none` = null item).  `columnCount` is the length of `headers`, `rowCount`
the length of `cells`. -/
structure Grid where
  headers : List (Option String)
  cells : List (List (Option String))
deriving Repr, DecidableEq

def gridColumnCount (g : Grid) : Nat := g.headers.length

def gridRowCount (g : Grid) : Nat := g.cells.length

/-- `horizontalHeaderItem(c)`. -/
def gridHeaderItem (g : Grid) (c : Nat) : Option String := g.headers.getD c none

/-- `item(r, c)`. -/
def gridItem (g : Grid) (r c : Nat) : Option String := (g.cells.getD r []).getD c none

/-- The header-collection loop of `XMLWorker::UpdateCompleteTable`: the
header item's text per column, or the generated `Column_<c+1>` default when
the header item is null. -/
def gridHeadersList (g : Grid) : List String :=
  (List.range (gridColumnCount g)).map (fun c =>
    match gridHeaderItem g c with
    | some s => s
    | none => "Column_" ++ toString (c + 1))

/-- The cell-collection loop of `XMLWorker::UpdateCompleteTable` for one
widget row: the cell item's text per column, `""` for a null item. -/
def gridRowData (g : Grid) (r : Nat) : List String :=
  (List.range (gridColumnCount g)).map (fun c => (gridItem g r c).getD "")

/-- All widget rows, as collected by `XMLWorker::UpdateCompleteTable`. -/
def gridRowsList (g : Grid) : List (List String) :=
  (List.range (gridRowCount g)).map (fun r => gridRowData g r)

/-- `QTableWidget::clear`: all items (cells and headers) are removed, the
row/column counts stay. -/
def gridClear (g : Grid) : Grid :=
  { headers := g.headers.map (fun _ => none)
    cells := g.cells.map (fun row => row.map (fun _ => none)) }

/-- Resize an item list to length `n`, keeping existing items. -/
def gridResizeList (l : List (Option String)) (n : Nat) : List (Option String) :=
  (List.range n).map (fun i => l.getD i none)

/-- `QTableWidget::setColumnCount`. -/
def gridSetColumnCount (g : Grid) (n : Nat) : Grid :=
  { headers := gridResizeList g.headers n
    cells := g.cells.map (fun row => gridResizeList row n) }

/-- `QTableWidget::setRowCount`. -/
def gridSetRowCount (g : Grid) (m : Nat) : Grid :=
  { g with
    cells := (List.range m).map (fun r =>
      g.cells.getD r (List.replicate (gridColumnCount g) none)) }

/-- `QTableWidget::setHorizontalHeaderLabels`: sets the first
`min(labels.size, columnCount)` header items. -/
def gridSetHorizontalHeaderLabels (g : Grid) (labels : List String) : Grid :=
  { g with
    headers := (List.range (gridColumnCount g)).map (fun c =>
      if c < labels.length then some (labels.getD c "") else g.headers.getD c none) }

/-- `QTableWidget::setItem`. -/
def gridSetItem (g : Grid) (r c : Nat) (s : String) : Grid :=
  { g with cells := g.cells.set r ((g.cells.getD r []).set c (some s)) }

/-- The inner population loop of `XMLWorker::LoadTableData` for one row:
set an item for every column position covered by both the row data and the
header list. -/
def populateRow (g : Grid) (r : Nat) (rowData : List String) (ncols : Nat) : Grid :=
  (List.range (min rowData.length ncols)).foldl
    (fun acc c => gridSetItem acc r c (rowData.getD c "")) g

/-! ## `XMLWorker` session state and public operations -/

/-- The private state of one `XMLWorker` instance. -/
structure XMLWorker where
  CurrentFilePath : String
  XmlDocument : Option Doc
  AvailableTableNames : List String
  FileLoaded : Bool
deriving Repr, DecidableEq

/-- A freshly constructed `XMLWorker`. -/
def initialWorker : XMLWorker :=
  { CurrentFilePath := "", XmlDocument := none, AvailableTableNames := [], FileLoaded := false }

/-- Replace the table element at position `i` of the document (the effect of
mutating the DOM element reference returned by `FindTableElement`). -/
def setTableAt (d : Doc) (i : Nat) (t : Table) : Doc :=
  { d with tables := d.tables.set i t }

/-- `XMLWorker::LoadTableData`.  Returns the `bool` result together with the
widget (`none` models a null `QTableWidget*`). -/
def LoadTableData (w : XMLWorker) (tableName : String) (tableWidget : Option Grid) :
    Bool × Option Grid :=
  match tableWidget with
  | none => (false, none)
  | some g =>
    if !w.FileLoaded || tableName.isEmpty then (false, some g)
    else
      match w.XmlDocument with
      | none => (false, some g)
      | some d =>
        match FindTableElement d tableName with
        | none => (false, some g)
        | some t =>
          let columnHeaders := ExtractColumnHeaders t
          let tableRows := ExtractTableRows t
          let g1 := gridClear g
          let g2 := gridSetColumnCount g1 columnHeaders.length
          let g3 := gridSetRowCount g2 tableRows.length
          let g4 := gridSetHorizontalHeaderLabels g3 columnHeaders
          let g5 := (List.range tableRows.length).foldl
            (fun acc r => populateRow acc r (tableRows.getD r []) columnHeaders.length) g4
          (true, some g5)

/-- `XMLWorker::AddRowToTable`. -/
def AddRowToTable (w : XMLWorker) (tableName : String) (rowData : List String) :
    Bool × XMLWorker :=
  if !w.FileLoaded || tableName.isEmpty then (false, w)
  else
    match w.XmlDocument with
    | none => (false, w)
    | some d =>
      match FindTableIdx d.tables tableName with
      | none => (false, w)
      | some i =>
        match d.tables[i]? with
        | none => (false, w)
        | some t =>
          let columnHeaders := ExtractColumnHeaders t
          let newRow := CreateRowElement rowData columnHeaders
          (true, { w with XmlDocument := some (setTableAt d i { t with rows := t.rows ++ [newRow] }) })

/-- `XMLWorker::DeleteRowFromTable` (`rowIndex` is a C++ `int`). -/
def DeleteRowFromTable (w : XMLWorker) (tableName : String) (rowIndex : Int) :
    Bool × XMLWorker :=
  if !w.FileLoaded || tableName.isEmpty || rowIndex < 0 then (false, w)
  else
    match w.XmlDocument with
    | none => (false, w)
    | some d =>
      match FindTableIdx d.tables tableName with
      | none => (false, w)
      | some i =>
        match d.tables[i]? with
        | none => (false, w)
        | some t =>
          if (t.rows.length : Int) ≤ rowIndex then (false, w)
          else
            let d2 := setTableAt d i { t with rows := t.rows.eraseIdx rowIndex.toNat }
            (true, { w with XmlDocument := some d2 })

/-- `XMLWorker::UpdateCompleteTable`: collect headers and rows from the
widget, then replace the found table's rows wholesale. -/
def UpdateCompleteTable (w : XMLWorker) (tableName : String) (tableWidget : Option Grid) :
    Bool × XMLWorker :=
  match tableWidget with
  | none => (false, w)
  | some g =>
    if !w.FileLoaded || tableName.isEmpty then (false, w)
    else
      match w.XmlDocument with
      | none => (false, w)
      | some d =>
        match FindTableIdx d.tables tableName with
        | none => (false, w)
        | some i =>
          match d.tables[i]? with
          | none => (false, w)
          | some t =>
            let d2 := setTableAt d i (ReplaceRows t (gridRowsList g) (gridHeadersList g))
            (true, { w with XmlDocument := some d2 })

/-! ## Serialization (`QDomDocument::toString(4)`, used by `SaveXMLFile`)

The serializer renders the document tree as XML text with four-space
indentation per depth level, escaping the XML special characters in text
payloads and attribute values.  It works over `List Char`. -/

def tableTagChars : List Char := ['t', 'a', 'b', 'l', 'e']

def rowTagChars : List Char := ['r', 'o', 'w']

def cellTagChars : List Char := ['c', 'e', 'l', 'l']

def nameKeyChars : List Char := ['n', 'a', 'm', 'e']

/-- XML escaping of one character (`&`, `<`, `>`, `"` become entities). -/
def escChar (c : Char) : List Char :=
  if c = '&' then ['&', 'a', 'm', 'p', ';']
  else if c = '<' then ['&', 'l', 't', ';']
  else if c = '>' then ['&', 'g', 't', ';']
  else if c = '"' then ['&', 'q', 'u', 'o', 't', ';']
  else [c]

/-- XML escaping of a character sequence. -/
def escape : List Char → List Char
  | [] => []
  | c :: cs => escChar c ++ escape cs

/-- Four spaces of indentation per depth level. -/
def indentChars (lvl : Nat) : List Char := List.replicate (4 * lvl) ' '

/-- The rendered `name="..."` attribute, empty when the attribute is absent. -/
def nameAttrChars : Option String → List Char
  | none => []
  | some v => ' ' :: 'n' :: 'a' :: 'm' :: 'e' :: '=' :: '"' :: (escape v.data ++ ['"'])

/-- Serialize a list of subtrees with a given renderer. -/
def serializeList (f : α → List Char) : List α → List Char
  | [] => []
  | x :: xs => f x ++ serializeList f xs

/-- One `cell` element on its own line: `<cell name="...">text</cell>`. -/
def serializeCell (lvl : Nat) (c : Cell) : List Char :=
  indentChars lvl ++ '<' :: (cellTagChars ++ nameAttrChars c.name) ++
    '>' :: (escape c.text.data ++ '<' :: '/' :: (cellTagChars ++ ['>', '\n']))

/-- One `row` element with its cells indented one level deeper. -/
def serializeRow (lvl : Nat) (r : Row) : List Char :=
  indentChars lvl ++ '<' :: (rowTagChars ++ ['>', '\n']) ++
    serializeList (serializeCell (lvl + 1)) r.cells ++
    indentChars lvl ++ '<' :: '/' :: (rowTagChars ++ ['>', '\n'])

/-- One `table` element with its rows indented one level deeper. -/
def serializeTable (lvl : Nat) (t : Table) : List Char :=
  indentChars lvl ++ '<' :: (tableTagChars ++ nameAttrChars t.name) ++
    '>' :: '\n' :: serializeList (serializeRow (lvl + 1)) t.rows ++
    indentChars lvl ++ '<' :: '/' :: (tableTagChars ++ ['>', '\n'])

/-- The whole document: root element at depth 0, tables at depth 1. -/
def serializeChars (d : Doc) : List Char :=
  '<' :: d.rootTag.data ++ '>' :: '\n' :: serializeList (serializeTable 1) d.tables ++
    '<' :: '/' :: d.rootTag.data ++ ['>', '\n']

/-- `Serialize` (the text `XMLWorker::SaveXMLFile` writes to disk). -/
def serializeXML (d : Doc) : String := String.mk (serializeChars d)

/-! ## Parsing (`QDomDocument::setContent`, used by `LoadXMLFile`)

An executable recursive-descent parser for XML documents of the tabular
shape of the file-format contract (root element containing `table`
elements, containing `row` elements, containing `cell` elements with text
content).  Whitespace between elements is insignificant, text payloads and
attribute values use the standard XML entities, attributes other than
`name` and the XML prologue are not modelled.  Sibling loops use an
explicit recursion budget; the top-level entry point supplies a budget
derived from the input length that each loop can never exhaust, since every
iteration consumes at least one character. -/

def isWsChar (c : Char) : Bool := c = ' ' || c = '\n' || c = '\t' || c = '\r'

/-- Skip leading whitespace. -/
def skipWs : List Char → List Char
  | [] => []
  | c :: cs => if isWsChar c then skipWs cs else c :: cs

/-- Characters acceptable in element/attribute names. -/
def isNameChar (c : Char) : Bool :=
  c.isAlpha || c.isDigit || c = '_' || c = '-' || c = '.' || c = ':'

/-- Longest name prefix and the remaining input. -/
def takeName : List Char → List Char × List Char
  | [] => ([], [])
  | c :: cs =>
    if isNameChar c then
      let p := takeName cs
      (c :: p.1, p.2)
    else ([], c :: cs)

/-- Text content up to the next `<`, decoding entities. -/
def parseText : List Char → Option (List Char × List Char)
  | [] => none
  | c :: cs =>
    if c = '<' then some ([], c :: cs)
    else if c = '&' then
      match cs with
      | 'a' :: 'm' :: 'p' :: ';' :: cs2 => (parseText cs2).map (fun p => ('&' :: p.1, p.2))
      | 'l' :: 't' :: ';' :: cs2 => (parseText cs2).map (fun p => ('<' :: p.1, p.2))
      | 'g' :: 't' :: ';' :: cs2 => (parseText cs2).map (fun p => ('>' :: p.1, p.2))
      | 'q' :: 'u' :: 'o' :: 't' :: ';' :: cs2 => (parseText cs2).map (fun p => ('"' :: p.1, p.2))
      | _ => none
    else (parseText cs).map (fun p => (c :: p.1, p.2))

/-- A double-quoted attribute value body up to the closing quote, decoding
entities; the closing quote is consumed. -/
def parseQuoted : List Char → Option (List Char × List Char)
  | [] => none
  | c :: cs =>
    if c = '"' then some ([], cs)
    else if c = '<' then none
    else if c = '&' then
      match cs with
      | 'a' :: 'm' :: 'p' :: ';' :: cs2 => (parseQuoted cs2).map (fun p => ('&' :: p.1, p.2))
      | 'l' :: 't' :: ';' :: cs2 => (parseQuoted cs2).map (fun p => ('<' :: p.1, p.2))
      | 'g' :: 't' :: ';' :: cs2 => (parseQuoted cs2).map (fun p => ('>' :: p.1, p.2))
      | 'q' :: 'u' :: 'o' :: 't' :: ';' :: cs2 => (parseQuoted cs2).map (fun p => ('"' :: p.1, p.2))
      | _ => none
    else (parseQuoted cs).map (fun p => (c :: p.1, p.2))

/-- The attribute list of an opening tag: `name="value"` pairs separated by
whitespace, stopping before the first non-name character (`>` or `/`). -/
def parseAttrs : Nat → List Char → Option (List (List Char × List Char) × List Char)
  | 0, _ => none
  | fuel + 1, s =>
    match skipWs s with
    | [] => some ([], [])
    | c :: cs =>
      if isNameChar c then
        match (takeName (c :: cs)).2 with
        | '=' :: '"' :: rest =>
          match parseQuoted rest with
          | none => none
          | some (v, rest2) =>
            match parseAttrs fuel rest2 with
            | none => none
            | some (attrs, rest3) => some (((takeName (c :: cs)).1, v) :: attrs, rest3)
        | _ => none
      else some ([], c :: cs)

/-- First `name` attribute of an attribute list (`setContent` rejects
duplicate attributes, so at most one can occur). -/
def lookupNameAttr : List (List Char × List Char) → Option String
  | [] => none
  | (k, v) :: rest => if k = nameKeyChars then some (String.mk v) else lookupNameAttr rest

/-- A closing tag `</tag>`; returns the input after it. -/
def parseClose (tag : List Char) (s : List Char) : Option (List Char) :=
  match s with
  | '<' :: '/' :: rest =>
    let p := takeName rest
    if p.1 = tag then
      match skipWs p.2 with
      | '>' :: rest2 => some rest2
      | _ => none
    else none
  | _ => none

/-- One iteration of the `cell`-children loop.  The loop stops (without
consuming) as soon as the input does not continue with a `<cell` opening
tag — in a well-formed row the only such continuation is the row's closing
tag, which the caller consumes; anything else makes the caller fail.
`rec` is the continuation for the remaining siblings. -/
def parseCellsStep (attrFuel : Nat) (rec : List Char → Option (List Cell × List Char))
    (s : List Char) : Option (List Cell × List Char) :=
  match skipWs s with
  | '<' :: rest =>
    if (takeName rest).1 = cellTagChars then
      match parseAttrs attrFuel (takeName rest).2 with
      | none => none
      | some (attrs, s2) =>
        match skipWs s2 with
        | '>' :: s3 =>
          match parseText s3 with
          | none => none
          | some (txt, s4) =>
            match parseClose cellTagChars s4 with
            | none => none
            | some s5 =>
              match rec s5 with
              | none => none
              | some (cells, s6) =>
                some ({ name := lookupNameAttr attrs, text := String.mk txt } :: cells, s6)
        | '/' :: '>' :: s3 =>
          match rec s3 with
          | none => none
          | some (cells, s6) =>
            some ({ name := lookupNameAttr attrs, text := "" } :: cells, s6)
        | _ => none
    else some ([], '<' :: rest)
  | other => some ([], other)

/-- The `cell` children of a row. -/
def parseCells : Nat → List Char → Option (List Cell × List Char)
  | 0, _ => none
  | fuel + 1, s => parseCellsStep (fuel + 1) (parseCells fuel) s

/-- One iteration of the `row`-children loop; same stopping discipline as
`parseCellsStep`. -/
def parseRowsStep (attrFuel : Nat) (cellsRec : List Char → Option (List Cell × List Char))
    (rec : List Char → Option (List Row × List Char)) (s : List Char) :
    Option (List Row × List Char) :=
  match skipWs s with
  | '<' :: rest =>
    if (takeName rest).1 = rowTagChars then
      match parseAttrs attrFuel (takeName rest).2 with
      | none => none
      | some (_, s2) =>
        match skipWs s2 with
        | '>' :: s3 =>
          match cellsRec s3 with
          | none => none
          | some (cells, s4) =>
            match parseClose rowTagChars s4 with
            | none => none
            | some s5 =>
              match rec s5 with
              | none => none
              | some (rows, s6) => some (⟨cells⟩ :: rows, s6)
        | '/' :: '>' :: s3 =>
          match rec s3 with
          | none => none
          | some (rows, s6) => some (⟨[]⟩ :: rows, s6)
        | _ => none
    else some ([], '<' :: rest)
  | other => some ([], other)

/-- The `row` children of a table. -/
def parseRows : Nat → List Char → Option (List Row × List Char)
  | 0, _ => none
  | fuel + 1, s => parseRowsStep (fuel + 1) (parseCells (fuel + 1)) (parseRows fuel) s

/-- One iteration of the `table`-children loop; same stopping discipline as
`parseCellsStep`. -/
def parseTablesStep (attrFuel : Nat) (rowsRec : List Char → Option (List Row × List Char))
    (rec : List Char → Option (List Table × List Char)) (s : List Char) :
    Option (List Table × List Char) :=
  match skipWs s with
  | '<' :: rest =>
    if (takeName rest).1 = tableTagChars then
      match parseAttrs attrFuel (takeName rest).2 with
      | none => none
      | some (attrs, s2) =>
        match skipWs s2 with
        | '>' :: s3 =>
          match rowsRec s3 with
          | none => none
          | some (rows, s4) =>
            match parseClose tableTagChars s4 with
            | none => none
            | some s5 =>
              match rec s5 with
              | none => none
              | some (tables, s6) =>
                some ({ name := lookupNameAttr attrs, rows := rows } :: tables, s6)
        | '/' :: '>' :: s3 =>
          match rec s3 with
          | none => none
          | some (tables, s6) =>
            some ({ name := lookupNameAttr attrs, rows := [] } :: tables, s6)
        | _ => none
    else some ([], '<' :: rest)
  | other => some ([], other)

/-- The `table` children of the root. -/
def parseTables : Nat → List Char → Option (List Table × List Char)
  | 0, _ => none
  | fuel + 1, s => parseTablesStep (fuel + 1) (parseRows (fuel + 1)) (parseTables fuel) s

/-- Parse a whole document: one root element (any tag name, attributes
discarded) whose element children are tables, followed by end of input. -/
def parseDocChars (s : List Char) : Option Doc :=
  match skipWs s with
  | '<' :: rest =>
    let p := takeName rest
    if p.1 = [] then none
    else
      match parseAttrs (s.length + 1) p.2 with
      | none => none
      | some (_, s2) =>
        match skipWs s2 with
        | '>' :: s3 =>
          match parseTables (s.length + 1) s3 with
          | none => none
          | some (tables, s4) =>
            match parseClose p.1 s4 with
            | none => none
            | some s5 =>
              if skipWs s5 = [] then some ⟨String.mk p.1, tables⟩ else none
        | '/' :: '>' :: s3 =>
          if skipWs s3 = [] then some ⟨String.mk p.1, []⟩ else none
        | _ => none
  | _ => none

/-- `Parse`: the document `QDomDocument::setContent` builds from the given
text, `none` on malformed input. -/
def parseXML (s : String) : Option Doc := parseDocChars s.data

/-! ## `LoadXMLFile` / `SaveXMLFile` -/

/-- Outcome of `QDomDocument::setContent`: the parsed document, or a parse
error with the parser-reported line, column and message. -/
inductive SetContentResult where
  | ok (d : Doc)
  | err (line column : Nat) (message : String)
deriving Repr, DecidableEq

/-- `setContent` as instantiated with the executable parser.  The concrete
line/column/message of Qt's error report are external to the repository and
stand in as fixed values here; `LoadXMLFile` is parametric in this function
precisely so that nothing proved below depends on them. -/
def qtSetContent (content : String) : SetContentResult :=
  match parseXML content with
  | some d => .ok d
  | none => .err 1 1 "XML parse error"

/-- `XMLWorker::ValidateXMLStructure`: fails only when the document has no
root element; the root tag name is never checked and a document without
tables is accepted. -/
def ValidateXMLStructure : Option Doc → Bool
  | none => false
  | some _ => true

/-- `XMLWorker::LoadXMLFile`, parametric in the external parse call.
`file` is the outcome of `QFile::open`+read (`none` = the file cannot be
opened).  Qt's `setContent` clears the document before parsing, so on a
parse error the stored document becomes the empty document.  Returns the
`bool` result, the new worker state, and the `qDebug` log lines. -/
def LoadXMLFile (parse : String → SetContentResult) (w : XMLWorker)
    (filePath : String) (file : Option String) : Bool × XMLWorker × List String :=
  if filePath.isEmpty then (false, w, ["Error: Empty file path provided"])
  else
    match file with
    | none => (false, w, ["Error: Cannot open file " ++ filePath])
    | some content =>
      match parse content with
      | .err l c m =>
        (false, { w with XmlDocument := none },
          ["Error: XML parsing failed at line " ++ toString l ++ " column " ++
            toString c ++ " : " ++ m])
      | .ok d =>
        let w1 := { w with XmlDocument := some d }
        if !ValidateXMLStructure w1.XmlDocument then
          (false, w1, ["Error: Invalid XML structure"])
        else
          let w2 := { w1 with
            CurrentFilePath := filePath
            AvailableTableNames := ParseXMLStructure d
            FileLoaded := true }
          (true, w2, ["Successfully loaded XML file: " ++ filePath])

/-- `XMLWorker::LoadXMLFile` with the Qt parser plugged in. -/
def LoadXMLFileQt (w : XMLWorker) (filePath : String) (file : Option String) :
    Bool × XMLWorker × List String :=
  LoadXMLFile qtSetContent w filePath file

/-- `QDomDocument::toString(4)` on the stored document (an empty document
renders as the empty string). -/
def docToStringQt : Option Doc → String
  | none => ""
  | some d => serializeXML d

/-- `XMLWorker::SaveXMLFile`: re-render the whole tree to the current file
path.  `canOpenForWrite` models the outcome of `QFile::open`; the returned
string is the content written. -/
def SaveXMLFile (w : XMLWorker) (canOpenForWrite : Bool) : Bool × Option String :=
  if !w.FileLoaded || w.CurrentFilePath.isEmpty then (false, none)
  else if !canOpenForWrite then (false, none)
  else (true, some (docToStringQt w.XmlDocument))

/-! ## Auxiliary definitions used by the statements and proofs -/

/-- The attribute list the parser recovers from a rendered `name`
attribute. -/
def attrsOfName : Option String → List (List Char × List Char)
  | none => []
  | some v => [(nameKeyChars, v.data)]

/-- Recursion budget needed by the `row`-children loop. -/
def rowsFuel (rs : List Row) : Nat := rs.foldr (fun r a => r.cells.length + 1 + a) 0

/-- Recursion budget needed by the `table`-children loop. -/
def tablesFuel (ts : List Table) : Nat := ts.foldr (fun t a => rowsFuel t.rows + 1 + a) 0

/-- An arbitrary in-place mutation of the rows of the table element at
position `j` (the document-side effect of any sequence of row additions,
deletions or replacements applied through a DOM reference to that
element). -/
def mutateRowsAt (d : Doc) (j : Nat) (f : List Row → List Row) : Doc :=
  match d.tables[j]? with
  | none => d
  | some t => setTableAt d j { t with rows := f t.rows }

/-- A small sample document used by concrete witnesses: one table `T` with
two one-cell rows. -/
def sampleDoc : Doc := ⟨"db", [⟨some "T", [⟨[⟨some "A", "x"⟩]⟩, ⟨[⟨some "A", "y"⟩]⟩]⟩]⟩

/-- The table of `sampleDoc`. -/
def sampleTable : Table := ⟨some "T", [⟨[⟨some "A", "x"⟩]⟩, ⟨[⟨some "A", "y"⟩]⟩]⟩

/-- A worker session with `sampleDoc` loaded. -/
def sampleWorker : XMLWorker := ⟨"a.xml", some sampleDoc, ["T"], true⟩

/-- A sample document whose only table `E` has zero rows. -/
def sampleDocEmptyTable : Doc := ⟨"db", [⟨some "E", []⟩]⟩

/-- A worker session with `sampleDocEmptyTable` loaded. -/
def sampleWorkerEmptyTable : XMLWorker := ⟨"a.xml", some sampleDocEmptyTable, ["E"], true⟩

/-- A small sample grid: one column with a header item, one row. -/
def sampleGrid : Grid := ⟨[some "H"], [[some "v"]]⟩

/-! ## Lemmas: lexical layer -/

theorem stringMk_data (s : String) : String.mk s.data = s := rfl

theorem skipWs_cons_ws (c : Char) (s : List Char) (h : isWsChar c = true) :
    skipWs (c :: s) = skipWs s := by
  simp [skipWs, h]

theorem skipWs_cons_not_ws (c : Char) (s : List Char) (h : isWsChar c = false) :
    skipWs (c :: s) = c :: s := by
  simp [skipWs, h]

theorem skipWs_replicate_space (n : Nat) (s : List Char) :
    skipWs (List.replicate n ' ' ++ s) = skipWs s := by
  induction n with
  | zero => rfl
  | succ n ih => simp [List.replicate_succ, skipWs, isWsChar, ih]

theorem skipWs_indent (lvl : Nat) (s : List Char) :
    skipWs (indentChars lvl ++ s) = skipWs s :=
  skipWs_replicate_space _ s

theorem takeName_append (nm r : List Char) (hnm : ∀ c ∈ nm, isNameChar c = true)
    (hr : ∀ c, r.head? = some c → isNameChar c = false) :
    takeName (nm ++ r) = (nm, r) := by
  induction nm with
  | nil =>
    cases r with
    | nil => rfl
    | cons c cs => simp [takeName, hr c rfl]
  | cons c cs ih =>
    have hc := hnm c (by simp)
    have ih2 := ih (fun x hx => hnm x (by simp [hx]))
    simp only [List.cons_append, takeName, hc, if_true, List.append_eq, ih2]

theorem takeName_all_name (s : List Char) : ∀ c ∈ (takeName s).1, isNameChar c = true := by
  induction s with
  | nil => simp [takeName]
  | cons c cs ih =>
    by_cases h : isNameChar c = true
    · simp only [takeName, h, if_true]
      intro x hx
      rcases List.mem_cons.mp hx with rfl | hx
      · exact h
      · exact ih x hx
    · simp only [takeName, h, if_false]
      simp

/-! ### `parseText` step equations -/

theorem parseText_lt (r : List Char) : parseText ('<' :: r) = some ([], '<' :: r) := by
  rw [parseText.eq_def]; simp

theorem parseText_amp (cs : List Char) :
    parseText ('&' :: 'a' :: 'm' :: 'p' :: ';' :: cs) =
      (parseText cs).map (fun p => ('&' :: p.1, p.2)) := rfl

theorem parseText_elt (cs : List Char) :
    parseText ('&' :: 'l' :: 't' :: ';' :: cs) =
      (parseText cs).map (fun p => ('<' :: p.1, p.2)) := rfl

theorem parseText_egt (cs : List Char) :
    parseText ('&' :: 'g' :: 't' :: ';' :: cs) =
      (parseText cs).map (fun p => ('>' :: p.1, p.2)) := rfl

theorem parseText_equot (cs : List Char) :
    parseText ('&' :: 'q' :: 'u' :: 'o' :: 't' :: ';' :: cs) =
      (parseText cs).map (fun p => ('"' :: p.1, p.2)) := rfl

theorem parseText_other (c : Char) (cs : List Char) (h1 : ¬c = '<') (h2 : ¬c = '&') :
    parseText (c :: cs) = (parseText cs).map (fun p => (c :: p.1, p.2)) := by
  rw [parseText.eq_def]; simp [h1, h2]

theorem parseText_escape (t r : List Char) :
    parseText (escape t ++ '<' :: r) = some (t, '<' :: r) := by
  induction t with
  | nil => rw [escape, List.nil_append, parseText_lt]
  | cons c cs ih =>
    by_cases h1 : c = '&'
    · subst h1
      rw [escape, show escChar '&' = ['&', 'a', 'm', 'p', ';'] from rfl]
      simp only [List.cons_append, List.nil_append, List.append_assoc]
      rw [parseText_amp, ih]
      rfl
    · by_cases h2 : c = '<'
      · subst h2
        rw [escape, show escChar '<' = ['&', 'l', 't', ';'] from rfl]
        simp only [List.cons_append, List.nil_append, List.append_assoc]
        rw [parseText_elt, ih]
        rfl
      · by_cases h3 : c = '>'
        · subst h3
          rw [escape, show escChar '>' = ['&', 'g', 't', ';'] from rfl]
          simp only [List.cons_append, List.nil_append, List.append_assoc]
          rw [parseText_egt, ih]
          rfl
        · by_cases h4 : c = '"'
          · subst h4
            rw [escape, show escChar '"' = ['&', 'q', 'u', 'o', 't', ';'] from rfl]
            simp only [List.cons_append, List.nil_append, List.append_assoc]
            rw [parseText_equot, ih]
            rfl
          · rw [escape, escChar]
            simp only [h1, h2, h3, h4, if_false, List.singleton_append, List.cons_append,
              List.nil_append, List.append_assoc]
            rw [parseText_other c _ h2 h1, ih]
            rfl

/-! ### `parseQuoted` step equations -/

theorem parseQuoted_quot (r : List Char) : parseQuoted ('"' :: r) = some ([], r) := by
  rw [parseQuoted.eq_def]; simp

theorem parseQuoted_amp (cs : List Char) :
    parseQuoted ('&' :: 'a' :: 'm' :: 'p' :: ';' :: cs) =
      (parseQuoted cs).map (fun p => ('&' :: p.1, p.2)) := rfl

theorem parseQuoted_elt (cs : List Char) :
    parseQuoted ('&' :: 'l' :: 't' :: ';' :: cs) =
      (parseQuoted cs).map (fun p => ('<' :: p.1, p.2)) := rfl

theorem parseQuoted_egt (cs : List Char) :
    parseQuoted ('&' :: 'g' :: 't' :: ';' :: cs) =
      (parseQuoted cs).map (fun p => ('>' :: p.1, p.2)) := rfl

theorem parseQuoted_equot (cs : List Char) :
    parseQuoted ('&' :: 'q' :: 'u' :: 'o' :: 't' :: ';' :: cs) =
      (parseQuoted cs).map (fun p => ('"' :: p.1, p.2)) := rfl

theorem parseQuoted_other (c : Char) (cs : List Char) (h1 : ¬c = '"') (h2 : ¬c = '<')
    (h3 : ¬c = '&') :
    parseQuoted (c :: cs) = (parseQuoted cs).map (fun p => (c :: p.1, p.2)) := by
  rw [parseQuoted.eq_def]; simp [h1, h2, h3]

theorem parseQuoted_escape (v r : List Char) :
    parseQuoted (escape v ++ '"' :: r) = some (v, r) := by
  induction v with
  | nil => rw [escape, List.nil_append, parseQuoted_quot]
  | cons c cs ih =>
    by_cases h1 : c = '&'
    · subst h1
      rw [escape, show escChar '&' = ['&', 'a', 'm', 'p', ';'] from rfl]
      simp only [List.cons_append, List.nil_append, List.append_assoc]
      rw [parseQuoted_amp, ih]
      rfl
    · by_cases h2 : c = '<'
      · subst h2
        rw [escape, show escChar '<' = ['&', 'l', 't', ';'] from rfl]
        simp only [List.cons_append, List.nil_append, List.append_assoc]
        rw [parseQuoted_elt, ih]
        rfl
      · by_cases h3 : c = '>'
        · subst h3
          rw [escape, show escChar '>' = ['&', 'g', 't', ';'] from rfl]
          simp only [List.cons_append, List.nil_append, List.append_assoc]
          rw [parseQuoted_egt, ih]
          rfl
        · by_cases h4 : c = '"'
          · subst h4
            rw [escape, show escChar '"' = ['&', 'q', 'u', 'o', 't', ';'] from rfl]
            simp only [List.cons_append, List.nil_append, List.append_assoc]
            rw [parseQuoted_equot, ih]
            rfl
          · rw [escape, escChar]
            simp only [h1, h2, h3, h4, if_false, List.singleton_append, List.cons_append,
              List.nil_append, List.append_assoc]
            rw [parseQuoted_other c _ h4 h2 h1, ih]
            rfl

/-! ### Attribute lists and closing tags on serializer output -/

theorem parseAttrs_stop (f : Nat) (c : Char) (r : List Char) (h1 : isWsChar c = false)
    (h2 : isNameChar c = false) :
    parseAttrs (f + 1) (c :: r) = some ([], c :: r) := by
  simp only [parseAttrs, skipWs_cons_not_ws _ _ h1, h2]
  simp

theorem parseAttrs_print (f : Nat) (nm : Option String) (r : List Char) :
    parseAttrs (f + 2) (nameAttrChars nm ++ '>' :: r) = some (attrsOfName nm, '>' :: r) := by
  cases nm with
  | none =>
    rw [nameAttrChars, List.nil_append]
    exact parseAttrs_stop (f + 1) '>' r (by decide) (by decide)
  | some v =>
    rw [nameAttrChars]
    simp only [List.cons_append, List.append_assoc, List.nil_append]
    have htn : takeName ('n' :: 'a' :: 'm' :: 'e' :: '=' :: '"' ::
        (escape v.data ++ '"' :: '>' :: r)) =
        (nameKeyChars, '=' :: '"' :: (escape v.data ++ '"' :: '>' :: r)) := by
      have h := takeName_append nameKeyChars ('=' :: '"' :: (escape v.data ++ '"' :: '>' :: r))
        (by decide) (by intro c hc; cases hc; decide)
      simpa [nameKeyChars] using h
    simp only [parseAttrs, skipWs_cons_ws ' ' _ (by decide), skipWs_cons_not_ws 'n' _ (by decide),
      show isNameChar 'n' = true from by decide, if_true, htn]
    rw [parseQuoted_escape v.data ('>' :: r)]
    simp [skipWs_cons_not_ws '>' r (by decide), show isNameChar '>' = false from by decide,
      attrsOfName]

theorem lookupNameAttr_attrsOfName (nm : Option String) :
    lookupNameAttr (attrsOfName nm) = nm := by
  cases nm with
  | none => rfl
  | some v => simp [attrsOfName, lookupNameAttr, stringMk_data]

theorem parseClose_print (tag r : List Char) (htag : ∀ c ∈ tag, isNameChar c = true) :
    parseClose tag ('<' :: '/' :: (tag ++ '>' :: r)) = some r := by
  rw [parseClose]
  rw [takeName_append tag ('>' :: r) htag (by intro c hc; cases hc; decide)]
  simp [skipWs_cons_not_ws '>' r (by decide)]

/-! ### Parsing the serializer's output -/

theorem takeName_slash (r : List Char) : takeName ('/' :: r) = ([], '/' :: r) := by
  simp [takeName, show isNameChar '/' = false from by decide]

theorem parseCells_succ (f : Nat) (s : List Char) :
    parseCells (f + 1) s = parseCellsStep (f + 1) (parseCells f) s := by
  simp only [parseCells]

theorem parseCellsStep_congr_ws (af : Nat) (rec : List Char → Option (List Cell × List Char))
    (s1 s2 : List Char) (h : skipWs s1 = skipWs s2) :
    parseCellsStep af rec s1 = parseCellsStep af rec s2 := by
  simp only [parseCellsStep, h]

theorem nameAttr_head_not_name (nm : Option String) (r : List Char) :
    ∀ c', (nameAttrChars nm ++ '>' :: r).head? = some c' → isNameChar c' = false := by
  cases nm with
  | none => intro c' hc'; simp [nameAttrChars] at hc'; subst hc'; decide
  | some v => intro c' hc'; simp [nameAttrChars] at hc'; subst hc'; decide

theorem serializeCell_shape (lvl : Nat) (c : Cell) (T : List Char) :
    serializeCell lvl c ++ T = indentChars lvl ++ '<' ::
      (cellTagChars ++ (nameAttrChars c.name ++ '>' ::
        (escape c.text.data ++ '<' :: '/' :: (cellTagChars ++ '>' :: '\n' :: T)))) := by
  simp [serializeCell, List.append_assoc]

theorem parseCells_print (cs : List Cell) (lvl k : Nat) (r' : List Char) :
    ∀ f : Nat, cs.length < f →
    parseCells f (serializeList (serializeCell lvl) cs ++ (indentChars k ++ '<' :: '/' :: r')) =
      some (cs, '<' :: '/' :: r') := by
  induction cs generalizing r' with
  | nil =>
    intro f hf
    obtain ⟨f1, rfl⟩ : ∃ f1, f = f1 + 1 := ⟨f - 1, by omega⟩
    rw [serializeList, List.nil_append, parseCells_succ]
    rw [parseCellsStep_congr_ws _ _ _ ('<' :: '/' :: r') (by rw [skipWs_indent])]
    simp only [parseCellsStep, skipWs_cons_not_ws '<' _ (by decide), takeName_slash]
    rw [if_neg (by decide : ¬([] : List Char) = cellTagChars)]
  | cons c cs ih =>
    intro f hf
    obtain ⟨f1, rfl⟩ : ∃ f1, f = f1 + 1 := ⟨f - 1, by omega⟩
    have hf1 : cs.length < f1 := by simpa using hf
    obtain ⟨f2, rfl⟩ : ∃ f2, f1 = f2 + 1 := ⟨f1 - 1, by omega⟩
    rw [serializeList, List.append_assoc, serializeCell_shape, parseCells_succ]
    rw [parseCellsStep_congr_ws _ _ _
      ('<' :: (cellTagChars ++ (nameAttrChars c.name ++ '>' ::
        (escape c.text.data ++ '<' :: '/' :: (cellTagChars ++ '>' :: '\n' ::
          (serializeList (serializeCell lvl) cs ++ (indentChars k ++ '<' :: '/' :: r')))))))
      (by rw [skipWs_indent])]
    have htn : takeName (cellTagChars ++ (nameAttrChars c.name ++ '>' ::
        (escape c.text.data ++ '<' :: '/' :: (cellTagChars ++ '>' :: '\n' ::
          (serializeList (serializeCell lvl) cs ++ (indentChars k ++ '<' :: '/' :: r')))))) =
        (cellTagChars, nameAttrChars c.name ++ '>' ::
          (escape c.text.data ++ '<' :: '/' :: (cellTagChars ++ '>' :: '\n' ::
            (serializeList (serializeCell lvl) cs ++ (indentChars k ++ '<' :: '/' :: r'))))) :=
      takeName_append _ _ (by decide) (nameAttr_head_not_name c.name _)
    simp only [parseCellsStep, skipWs_cons_not_ws '<' _ (by decide), htn, if_true]
    rw [show f2 + 1 + 1 = f2 + 2 from rfl, parseAttrs_print f2 c.name _]
    simp only [skipWs_cons_not_ws '>' _ (by decide)]
    rw [parseText_escape]
    simp only
    rw [show ('<' :: '/' :: (cellTagChars ++ '>' :: '\n' ::
      (serializeList (serializeCell lvl) cs ++ (indentChars k ++ '<' :: '/' :: r')))) =
      '<' :: '/' :: (cellTagChars ++ '>' :: ('\n' ::
        (serializeList (serializeCell lvl) cs ++ (indentChars k ++ '<' :: '/' :: r')))) from rfl]
    rw [parseClose_print cellTagChars _ (by decide)]
    have hnext : parseCells (f2 + 1) ('\n' ::
        (serializeList (serializeCell lvl) cs ++ (indentChars k ++ '<' :: '/' :: r'))) =
        some (cs, '<' :: '/' :: r') := by
      rw [parseCells_succ]
      rw [parseCellsStep_congr_ws _ _ _
        (serializeList (serializeCell lvl) cs ++ (indentChars k ++ '<' :: '/' :: r'))
        (by rw [skipWs_cons_ws '\n' _ (by decide)])]
      rw [← parseCells_succ]
      exact ih _ (f2 + 1) hf1
    dsimp only
    rw [hnext]
    simp [lookupNameAttr_attrsOfName, stringMk_data]


theorem parseCells_cons_nl (f : Nat) (s : List Char) :
    parseCells (f + 1) ('\n' :: s) = parseCells (f + 1) s := by
  rw [parseCells_succ, parseCellsStep_congr_ws _ _ _ s (skipWs_cons_ws '\n' s (by decide)),
    ← parseCells_succ]

theorem parseRows_succ (f : Nat) (s : List Char) :
    parseRows (f + 1) s = parseRowsStep (f + 1) (parseCells (f + 1)) (parseRows f) s := by
  simp only [parseRows]

theorem parseRowsStep_congr_ws (af : Nat) (cr : List Char → Option (List Cell × List Char))
    (rec : List Char → Option (List Row × List Char)) (s1 s2 : List Char)
    (h : skipWs s1 = skipWs s2) :
    parseRowsStep af cr rec s1 = parseRowsStep af cr rec s2 := by
  simp only [parseRowsStep, h]

theorem serializeRow_shape (lvl : Nat) (r : Row) (T : List Char) :
    serializeRow lvl r ++ T = indentChars lvl ++ '<' :: (rowTagChars ++ '>' :: '\n' ::
      (serializeList (serializeCell (lvl + 1)) r.cells ++ (indentChars lvl ++ '<' :: '/' ::
        (rowTagChars ++ '>' :: '\n' :: T)))) := by
  simp [serializeRow, List.append_assoc]

theorem parseRows_print (rs : List Row) (lvl k : Nat) (r' : List Char) :
    ∀ f : Nat, rowsFuel rs < f →
    parseRows f (serializeList (serializeRow lvl) rs ++ (indentChars k ++ '<' :: '/' :: r')) =
      some (rs, '<' :: '/' :: r') := by
  induction rs generalizing r' with
  | nil =>
    intro f hf
    obtain ⟨f1, rfl⟩ : ∃ f1, f = f1 + 1 := ⟨f - 1, by omega⟩
    rw [serializeList, List.nil_append, parseRows_succ]
    rw [parseRowsStep_congr_ws _ _ _ _ ('<' :: '/' :: r') (by rw [skipWs_indent])]
    simp only [parseRowsStep, skipWs_cons_not_ws '<' _ (by decide), takeName_slash]
    rw [if_neg (by decide : ¬([] : List Char) = rowTagChars)]
  | cons r rs ih =>
    intro f hf
    have hfuel : rowsFuel (r :: rs) = r.cells.length + 1 + rowsFuel rs := rfl
    obtain ⟨f1, rfl⟩ : ∃ f1, f = f1 + 1 := ⟨f - 1, by omega⟩
    have hc : r.cells.length < f1 + 1 := by omega
    have hrs : rowsFuel rs < f1 := by omega
    rw [serializeList, List.append_assoc, serializeRow_shape, parseRows_succ]
    rw [parseRowsStep_congr_ws _ _ _ _
      ('<' :: (rowTagChars ++ '>' :: '\n' ::
        (serializeList (serializeCell (lvl + 1)) r.cells ++ (indentChars lvl ++ '<' :: '/' ::
          (rowTagChars ++ '>' :: '\n' ::
            (serializeList (serializeRow lvl) rs ++ (indentChars k ++ '<' :: '/' :: r')))))))
      (by rw [skipWs_indent])]
    have htn : takeName (rowTagChars ++ '>' :: '\n' ::
        (serializeList (serializeCell (lvl + 1)) r.cells ++ (indentChars lvl ++ '<' :: '/' ::
          (rowTagChars ++ '>' :: '\n' ::
            (serializeList (serializeRow lvl) rs ++ (indentChars k ++ '<' :: '/' :: r')))))) =
        (rowTagChars, '>' :: '\n' ::
          (serializeList (serializeCell (lvl + 1)) r.cells ++ (indentChars lvl ++ '<' :: '/' ::
            (rowTagChars ++ '>' :: '\n' ::
              (serializeList (serializeRow lvl) rs ++ (indentChars k ++ '<' :: '/' :: r')))))) :=
      takeName_append _ _ (by decide) (by intro c hc'; cases hc'; decide)
    simp only [parseRowsStep, skipWs_cons_not_ws '<' _ (by decide), htn, if_true]
    rw [parseAttrs_stop f1 '>' _ (by decide) (by decide)]
    simp only [skipWs_cons_not_ws '>' _ (by decide)]
    rw [parseCells_cons_nl]
    rw [parseCells_print r.cells (lvl + 1) lvl _ (f1 + 1) hc]
    dsimp only
    rw [show ('<' :: '/' :: (rowTagChars ++ '>' :: '\n' ::
      (serializeList (serializeRow lvl) rs ++ (indentChars k ++ '<' :: '/' :: r')))) =
      '<' :: '/' :: (rowTagChars ++ '>' :: ('\n' ::
        (serializeList (serializeRow lvl) rs ++ (indentChars k ++ '<' :: '/' :: r')))) from rfl]
    rw [parseClose_print rowTagChars _ (by decide)]
    have hnext : parseRows f1 ('\n' ::
        (serializeList (serializeRow lvl) rs ++ (indentChars k ++ '<' :: '/' :: r'))) =
        some (rs, '<' :: '/' :: r') := by
      obtain ⟨f2, rfl⟩ : ∃ f2, f1 = f2 + 1 := ⟨f1 - 1, by omega⟩
      rw [parseRows_succ]
      rw [parseRowsStep_congr_ws _ _ _ _
        (serializeList (serializeRow lvl) rs ++ (indentChars k ++ '<' :: '/' :: r'))
        (by rw [skipWs_cons_ws '\n' _ (by decide)])]
      rw [← parseRows_succ]
      exact ih _ (f2 + 1) hrs
    dsimp only
    rw [hnext]

theorem parseTables_succ (f : Nat) (s : List Char) :
    parseTables (f + 1) s = parseTablesStep (f + 1) (parseRows (f + 1)) (parseTables f) s := by
  simp only [parseTables]

theorem parseTablesStep_congr_ws (af : Nat) (rr : List Char → Option (List Row × List Char))
    (rec : List Char → Option (List Table × List Char)) (s1 s2 : List Char)
    (h : skipWs s1 = skipWs s2) :
    parseTablesStep af rr rec s1 = parseTablesStep af rr rec s2 := by
  simp only [parseTablesStep, h]

theorem parseRows_cons_nl (f : Nat) (s : List Char) :
    parseRows (f + 1) ('\n' :: s) = parseRows (f + 1) s := by
  rw [parseRows_succ, parseRowsStep_congr_ws _ _ _ _ s (skipWs_cons_ws '\n' s (by decide)),
    ← parseRows_succ]

theorem serializeTable_shape (lvl : Nat) (t : Table) (T : List Char) :
    serializeTable lvl t ++ T = indentChars lvl ++ '<' ::
      (tableTagChars ++ (nameAttrChars t.name ++ '>' :: '\n' ::
        (serializeList (serializeRow (lvl + 1)) t.rows ++ (indentChars lvl ++ '<' :: '/' ::
          (tableTagChars ++ '>' :: '\n' :: T))))) := by
  simp [serializeTable, List.append_assoc]

theorem parseTables_print (ts : List Table) (lvl k : Nat) (r' : List Char) :
    ∀ f : Nat, tablesFuel ts < f →
    parseTables f (serializeList (serializeTable lvl) ts ++ (indentChars k ++ '<' :: '/' :: r')) =
      some (ts, '<' :: '/' :: r') := by
  induction ts generalizing r' with
  | nil =>
    intro f hf
    obtain ⟨f1, rfl⟩ : ∃ f1, f = f1 + 1 := ⟨f - 1, by omega⟩
    rw [serializeList, List.nil_append, parseTables_succ]
    rw [parseTablesStep_congr_ws _ _ _ _ ('<' :: '/' :: r') (by rw [skipWs_indent])]
    simp only [parseTablesStep, skipWs_cons_not_ws '<' _ (by decide), takeName_slash]
    rw [if_neg (by decide : ¬([] : List Char) = tableTagChars)]
  | cons t ts ih =>
    intro f hf
    have hfuel : tablesFuel (t :: ts) = rowsFuel t.rows + 1 + tablesFuel ts := rfl
    obtain ⟨f1, rfl⟩ : ∃ f1, f = f1 + 1 := ⟨f - 1, by omega⟩
    have hr : rowsFuel t.rows < f1 + 1 := by omega
    have hts : tablesFuel ts < f1 := by omega
    obtain ⟨f2, rfl⟩ : ∃ f2, f1 = f2 + 1 := ⟨f1 - 1, by omega⟩
    rw [serializeList, List.append_assoc, serializeTable_shape, parseTables_succ]
    rw [parseTablesStep_congr_ws _ _ _ _
      ('<' :: (tableTagChars ++ (nameAttrChars t.name ++ '>' :: '\n' ::
        (serializeList (serializeRow (lvl + 1)) t.rows ++ (indentChars lvl ++ '<' :: '/' ::
          (tableTagChars ++ '>' :: '\n' ::
            (serializeList (serializeTable lvl) ts ++ (indentChars k ++ '<' :: '/' :: r'))))))))
      (by rw [skipWs_indent])]
    have htn : takeName (tableTagChars ++ (nameAttrChars t.name ++ '>' :: '\n' ::
        (serializeList (serializeRow (lvl + 1)) t.rows ++ (indentChars lvl ++ '<' :: '/' ::
          (tableTagChars ++ '>' :: '\n' ::
            (serializeList (serializeTable lvl) ts ++ (indentChars k ++ '<' :: '/' :: r'))))))) =
        (tableTagChars, nameAttrChars t.name ++ '>' :: '\n' ::
          (serializeList (serializeRow (lvl + 1)) t.rows ++ (indentChars lvl ++ '<' :: '/' ::
            (tableTagChars ++ '>' :: '\n' ::
              (serializeList (serializeTable lvl) ts ++ (indentChars k ++ '<' :: '/' :: r')))))) :=
      takeName_append _ _ (by decide) (nameAttr_head_not_name t.name _)
    simp only [parseTablesStep, skipWs_cons_not_ws '<' _ (by decide), htn, if_true]
    rw [show f2 + 1 + 1 = f2 + 2 from rfl, parseAttrs_print f2 t.name _]
    simp only [skipWs_cons_not_ws '>' _ (by decide)]
    rw [parseRows_cons_nl]
    rw [parseRows_print t.rows (lvl + 1) lvl _ (f2 + 1 + 1) hr]
    dsimp only
    rw [show ('<' :: '/' :: (tableTagChars ++ '>' :: '\n' ::
      (serializeList (serializeTable lvl) ts ++ (indentChars k ++ '<' :: '/' :: r')))) =
      '<' :: '/' :: (tableTagChars ++ '>' :: ('\n' ::
        (serializeList (serializeTable lvl) ts ++ (indentChars k ++ '<' :: '/' :: r')))) from rfl]
    rw [parseClose_print tableTagChars _ (by decide)]
    have hnext : parseTables (f2 + 1) ('\n' ::
        (serializeList (serializeTable lvl) ts ++ (indentChars k ++ '<' :: '/' :: r'))) =
        some (ts, '<' :: '/' :: r') := by
      rw [parseTables_succ]
      rw [parseTablesStep_congr_ws _ _ _ _
        (serializeList (serializeTable lvl) ts ++ (indentChars k ++ '<' :: '/' :: r'))
        (by rw [skipWs_cons_ws '\n' _ (by decide)])]
      rw [← parseTables_succ]
      exact ih _ (f2 + 1) hts
    dsimp only
    rw [hnext]
    simp [lookupNameAttr_attrsOfName]

theorem serializeList_cell_len (lvl : Nat) (cs : List Cell) :
    cs.length ≤ (serializeList (serializeCell lvl) cs).length := by
  induction cs with
  | nil => simp [serializeList]
  | cons c cs ih =>
    rw [serializeList]
    have : 1 ≤ (serializeCell lvl c).length := by
      simp only [serializeCell, List.length_append, List.length_cons]
      omega
    simp only [List.length_append, List.length_cons]
    omega

theorem serializeList_row_len (lvl : Nat) (rs : List Row) :
    rowsFuel rs ≤ (serializeList (serializeRow lvl) rs).length := by
  induction rs with
  | nil => simp [serializeList, rowsFuel]
  | cons r rs ih =>
    rw [serializeList]
    have h1 : r.cells.length + 1 ≤ (serializeRow lvl r).length := by
      have := serializeList_cell_len (lvl + 1) r.cells
      simp only [serializeRow, List.length_append, List.length_cons]
      omega
    have hfuel : rowsFuel (r :: rs) = r.cells.length + 1 + rowsFuel rs := rfl
    simp only [List.length_append]
    omega

theorem serializeList_table_len (lvl : Nat) (ts : List Table) :
    tablesFuel ts ≤ (serializeList (serializeTable lvl) ts).length := by
  induction ts with
  | nil => simp [serializeList, tablesFuel]
  | cons t ts ih =>
    rw [serializeList]
    have h1 : rowsFuel t.rows + 1 ≤ (serializeTable lvl t).length := by
      have := serializeList_row_len (lvl + 1) t.rows
      simp only [serializeTable, List.length_append, List.length_cons]
      omega
    have hfuel : tablesFuel (t :: ts) = rowsFuel t.rows + 1 + tablesFuel ts := rfl
    simp only [List.length_append]
    omega

theorem tablesFuel_lt (d : Doc) : tablesFuel d.tables < (serializeChars d).length + 1 := by
  have := serializeList_table_len 1 d.tables
  simp only [serializeChars, List.length_append, List.length_cons]
  omega

theorem parseTables_cons_nl (f : Nat) (s : List Char) :
    parseTables (f + 1) ('\n' :: s) = parseTables (f + 1) s := by
  rw [parseTables_succ, parseTablesStep_congr_ws _ _ _ _ s (skipWs_cons_ws '\n' s (by decide)),
    ← parseTables_succ]

theorem parse_serialize_chars (d : Doc) (h1 : d.rootTag.data ≠ [])
    (h2 : ∀ c ∈ d.rootTag.data, isNameChar c = true) :
    parseDocChars (serializeChars d) = some d := by
  have hshape : serializeChars d = '<' :: (d.rootTag.data ++ '>' :: '\n' ::
      (serializeList (serializeTable 1) d.tables ++ (indentChars 0 ++ '<' :: '/' ::
        (d.rootTag.data ++ '>' :: '\n' :: [])))) := by
    simp [serializeChars, indentChars, List.append_assoc]
  have htn : takeName (d.rootTag.data ++ '>' :: '\n' ::
      (serializeList (serializeTable 1) d.tables ++ (indentChars 0 ++ '<' :: '/' ::
        (d.rootTag.data ++ '>' :: '\n' :: [])))) =
      (d.rootTag.data, '>' :: '\n' ::
        (serializeList (serializeTable 1) d.tables ++ (indentChars 0 ++ '<' :: '/' ::
          (d.rootTag.data ++ '>' :: '\n' :: [])))) :=
    takeName_append _ _ h2 (by intro c hc; cases hc; decide)
  have hfuel := tablesFuel_lt d
  conv_lhs => rw [hshape]
  simp only [parseDocChars, skipWs_cons_not_ws '<' _ (by decide), htn]
  rw [if_neg h1]
  obtain ⟨F, hF⟩ : ∃ F, (serializeChars d).length = F + 1 + 1 := by
    refine ⟨(serializeChars d).length - 2, ?_⟩
    rw [hshape]
    simp only [List.length_append, List.length_cons]
    omega
  rw [← hshape, hF]
  rw [parseAttrs_stop (F + 1 + 1) '>' _ (by decide) (by decide)]
  simp only [skipWs_cons_not_ws '>' _ (by decide)]
  rw [show F + 1 + 1 + 1 = (F + 1 + 1) + 1 from rfl, parseTables_cons_nl]
  rw [parseTables_print d.tables 1 0 _ (F + 1 + 1 + 1) (by omega)]
  dsimp only
  rw [show ('<' :: '/' :: (d.rootTag.data ++ '>' :: '\n' :: ([] : List Char))) =
    '<' :: '/' :: (d.rootTag.data ++ '>' :: ('\n' :: ([] : List Char))) from rfl]
  rw [parseClose_print d.rootTag.data _ h2]
  simp [skipWs, isWsChar, stringMk_data]

theorem parseDocChars_valid (s : List Char) (d : Doc) (h : parseDocChars s = some d) :
    d.rootTag.data ≠ [] ∧ ∀ c ∈ d.rootTag.data, isNameChar c = true := by
  unfold parseDocChars at h
  split at h
  · rename_i rest heq
    by_cases hnil : (takeName rest).1 = []
    · rw [if_pos hnil] at h
      exact absurd h (by simp)
    · rw [if_neg hnil] at h
      have hname := takeName_all_name rest
      split at h
      · exact absurd h (by simp)
      · split at h
        · split at h
          · exact absurd h (by simp)
          · split at h
            · exact absurd h (by simp)
            · split at h
              · obtain rfl : (⟨String.mk (takeName rest).1, _⟩ : Doc) = d := Option.some.inj h
                exact ⟨by simpa using hnil, by simpa using hname⟩
              · exact absurd h (by simp)
        · split at h
          · obtain rfl : (⟨String.mk (takeName rest).1, []⟩ : Doc) = d := Option.some.inj h
            exact ⟨by simpa using hnil, by simpa using hname⟩
          · exact absurd h (by simp)
        · exact absurd h (by simp)
  · exact absurd h (by simp)

/-! ### Derived characterizations used by the claims -/

theorem parseXML_serializeXML (s : String) (d : Doc) (h : parseXML s = some d) :
    parseXML (serializeXML d) = some d := by
  obtain ⟨hne, hname⟩ := parseDocChars_valid s.data d h
  show parseDocChars (String.mk (serializeChars d)).data = some d
  exact parse_serialize_chars d hne hname

theorem appendNewRows_eq (headers : List String) (t : Table) (rds : List (List String)) :
    appendNewRows headers t rds =
      { t with rows := t.rows ++ rds.map (fun rd => CreateRowElement rd headers) } := by
  induction rds generalizing t with
  | nil => simp [appendNewRows]
  | cons rd rds ih => simp [appendNewRows, ih]

theorem replaceRows_eq (t : Table) (newRows : List (List String)) (headers : List String) :
    ReplaceRows t newRows headers =
      { name := t.name, rows := newRows.map (fun rd => CreateRowElement rd headers) } := by
  simp [ReplaceRows, appendNewRows_eq]

theorem buildCells_eq (rd : List String) (i : Nat) (hs : List String) :
    buildCells rd i hs = hs.mapIdx (fun k h => ⟨some h, rd.getD (i + k) ""⟩) := by
  induction hs generalizing i with
  | nil => simp [buildCells]
  | cons h hs ih =>
    rw [buildCells, List.mapIdx_cons, ih]
    simp [Nat.add_assoc, Nat.add_comm, Nat.add_left_comm]

theorem createRowElement_eq (rd hs : List String) :
    CreateRowElement rd hs = ⟨hs.mapIdx (fun k h => ⟨some h, rd.getD k ""⟩)⟩ := by
  rw [CreateRowElement, buildCells_eq]
  simp

theorem headersLoop_eq (i : Nat) (cs : List Cell) :
    headersLoop i cs = cs.mapIdx (fun k c => headerOfCell (i + k) c) := by
  induction cs generalizing i with
  | nil => simp [headersLoop]
  | cons c cs ih =>
    rw [headersLoop, List.mapIdx_cons, ih]
    simp [Nat.add_assoc, Nat.add_comm, Nat.add_left_comm]

theorem findTableIdxAux_first (p : Table → Bool) (l : List Table) (i : Nat) (ti : Table)
    (hi : l[i]? = some ti) (hp : p ti = true)
    (hfirst : ∀ k tk, k < i → l[k]? = some tk → p tk = false) :
    findTableIdxAux p l = some i := by
  induction l generalizing i with
  | nil => simp at hi
  | cons a as ih =>
    cases i with
    | zero =>
      simp at hi
      subst hi
      simp [findTableIdxAux, hp]
    | succ i =>
      have ha : p a = false := hfirst 0 a (Nat.succ_pos i) (by simp)
      rw [findTableIdxAux, if_neg (by simp [ha])]
      rw [ih i (by simpa using hi) (fun k tk hk hkk => hfirst (k + 1) tk (by omega) (by simpa using hkk))]
      rfl

theorem findTableIdxAux_none (p : Table → Bool) (l : List Table)
    (h : ∀ t ∈ l, p t = false) :
    findTableIdxAux p l = none := by
  induction l with
  | nil => rfl
  | cons a as ih =>
    rw [findTableIdxAux, if_neg (by simp [h a (by simp)])]
    rw [ih (fun t ht => h t (by simp [ht]))]
    rfl

/-! ## Claim theorems (part 1) -/

/-- Claim C5: extracted headers come only from the first row's cells, in that
row's order, with a cell whose `name` attribute is missing (or empty) given
the placeholder `Column_<1-based position>`; row extraction returns each
row's cell texts positionally in document order; and the concrete example of
the claim — a table with rows `[["a","b"], ["c"]]` and first-row cell names
`["Col1","Col2"]` — yields headers `["Col1","Col2"]` and second row `["c"]`. -/
theorem c5_header_row_extraction :
    (∀ t : Table, ExtractColumnHeaders t =
      match t.rows with
      | [] => []
      | firstRow :: _ => firstRow.cells.mapIdx (fun i c =>
          if (attrOf c.name).isEmpty then "Column_" ++ toString (i + 1) else attrOf c.name))
    ∧ (∀ t₁ t₂ : Table, t₁.rows.head? = t₂.rows.head? →
        ExtractColumnHeaders t₁ = ExtractColumnHeaders t₂)
    ∧ (∀ t : Table, ExtractTableRows t = t.rows.map (fun r => r.cells.map (fun c => c.text)))
    ∧ ExtractColumnHeaders
        ⟨some "T", [⟨[⟨some "Col1", "a"⟩, ⟨some "Col2", "b"⟩]⟩, ⟨[⟨some "Col1", "c"⟩]⟩]⟩ =
        ["Col1", "Col2"]
    ∧ ExtractTableRows
        ⟨some "T", [⟨[⟨some "Col1", "a"⟩, ⟨some "Col2", "b"⟩]⟩, ⟨[⟨some "Col1", "c"⟩]⟩]⟩ =
        [["a", "b"], ["c"]] := by
  refine ⟨?_, ?_, ?_, by decide, by decide⟩
  · intro t
    cases hrows : t.rows with
    | nil => simp [ExtractColumnHeaders, hrows]
    | cons r rs =>
      simp only [ExtractColumnHeaders, hrows, headersLoop_eq]
      simp [headerOfCell]
  · intro t₁ t₂ h
    cases h1 : t₁.rows with
    | nil =>
      cases h2 : t₂.rows with
      | nil => simp [ExtractColumnHeaders, h1, h2]
      | cons r rs => rw [h1, h2] at h; simp at h
    | cons r rs =>
      cases h2 : t₂.rows with
      | nil => rw [h1, h2] at h; simp at h
      | cons r' rs' =>
        rw [h1, h2] at h
        simp at h
        simp [ExtractColumnHeaders, h1, h2, h]
  · intro t
    rfl

/-- Concrete instance of `c5_header_row_extraction` (headers depend only on
the first row). -/
theorem c5_header_row_extraction_witness :
    ExtractColumnHeaders ⟨some "T", [⟨[⟨some "Col1", "a"⟩]⟩, ⟨[⟨none, "zz"⟩]⟩]⟩ =
      ExtractColumnHeaders ⟨none, [⟨[⟨some "Col1", "a"⟩]⟩]⟩ :=
  c5_header_row_extraction.2.1 ⟨some "T", [⟨[⟨some "Col1", "a"⟩]⟩, ⟨[⟨none, "zz"⟩]⟩]⟩
    ⟨none, [⟨[⟨some "Col1", "a"⟩]⟩]⟩ (by decide)

/-- Claim C6: `ReplaceRows` removes all existing rows (the result does not
depend on them) and appends exactly one new row per input entry; each new
row has one cell per header position, the cell's `name` attribute is the
corresponding header, its text is the input row's value at that position or
`""` when the input row is shorter, and input values beyond the header
count are discarded. -/
theorem c6_replace_rows_shape :
    ∀ (t : Table) (newRows : List (List String)) (headers : List String),
      (ReplaceRows t newRows headers).name = t.name ∧
      (ReplaceRows t newRows headers).rows.length = newRows.length ∧
      (ReplaceRows t newRows headers).rows =
        newRows.map (fun rd => ⟨headers.mapIdx (fun k h => ⟨some h, rd.getD k ""⟩)⟩) ∧
      ReplaceRows t newRows headers = ReplaceRows ⟨t.name, []⟩ newRows headers := by
  intro t newRows headers
  refine ⟨?_, ?_, ?_, ?_⟩
  · rw [replaceRows_eq]
  · rw [replaceRows_eq]; simp
  · rw [replaceRows_eq]
    simp only [createRowElement_eq]
  · simp [replaceRows_eq]

/-- Claim C8: calling `ReplaceRows` twice in succession with the same
arguments leaves the table in the same observable state (same extracted
headers and rows) as calling it once. -/
theorem c8_replace_idempotent :
    ∀ (t : Table) (newRows : List (List String)) (headers : List String),
      ExtractColumnHeaders (ReplaceRows (ReplaceRows t newRows headers) newRows headers) =
        ExtractColumnHeaders (ReplaceRows t newRows headers) ∧
      ExtractTableRows (ReplaceRows (ReplaceRows t newRows headers) newRows headers) =
        ExtractTableRows (ReplaceRows t newRows headers) := by
  intro t newRows headers
  have h : ReplaceRows (ReplaceRows t newRows headers) newRows headers =
      ReplaceRows t newRows headers := by
    rw [replaceRows_eq, replaceRows_eq]
  rw [h]
  exact ⟨rfl, rfl⟩

/-- Claim C2: for every document produced by a successful parse, serializing
it and parsing the serialized output again yields a document with the same
table-name list and, for every table, the same extracted headers and rows. -/
theorem c2_round_trip (s : String) (d : Doc) (h : parseXML s = some d) :
    ∃ d2 : Doc, parseXML (serializeXML d) = some d2 ∧
      ParseXMLStructure d2 = ParseXMLStructure d ∧
      d2.tables.map ExtractColumnHeaders = d.tables.map ExtractColumnHeaders ∧
      d2.tables.map ExtractTableRows = d.tables.map ExtractTableRows :=
  ⟨d, parseXML_serializeXML s d h, rfl, rfl, rfl⟩

/-- Concrete instance of `c2_round_trip`. -/
theorem c2_round_trip_witness :
    parseXML "<db><table name=\"T\"><row><cell name=\"A\">x</cell><cell>y</cell></row><row><cell name=\"A\">z</cell></row></table></db>" =
      some ⟨"db", [⟨some "T", [⟨[⟨some "A", "x"⟩, ⟨none, "y"⟩]⟩, ⟨[⟨some "A", "z"⟩]⟩]⟩]⟩ ∧
    (∃ d2 : Doc, parseXML (serializeXML
        ⟨"db", [⟨some "T", [⟨[⟨some "A", "x"⟩, ⟨none, "y"⟩]⟩, ⟨[⟨some "A", "z"⟩]⟩]⟩]⟩) = some d2 ∧
      ParseXMLStructure d2 =
        ParseXMLStructure ⟨"db", [⟨some "T", [⟨[⟨some "A", "x"⟩, ⟨none, "y"⟩]⟩, ⟨[⟨some "A", "z"⟩]⟩]⟩]⟩ ∧
      d2.tables.map ExtractColumnHeaders =
        (⟨"db", [⟨some "T", [⟨[⟨some "A", "x"⟩, ⟨none, "y"⟩]⟩, ⟨[⟨some "A", "z"⟩]⟩]⟩]⟩ : Doc).tables.map ExtractColumnHeaders ∧
      d2.tables.map ExtractTableRows =
        (⟨"db", [⟨some "T", [⟨[⟨some "A", "x"⟩, ⟨none, "y"⟩]⟩, ⟨[⟨some "A", "z"⟩]⟩]⟩]⟩ : Doc).tables.map ExtractTableRows) :=
  ⟨by decide, c2_round_trip
    "<db><table name=\"T\"><row><cell name=\"A\">x</cell><cell>y</cell></row><row><cell name=\"A\">z</cell></row></table></db>"
    ⟨"db", [⟨some "T", [⟨[⟨some "A", "x"⟩, ⟨none, "y"⟩]⟩, ⟨[⟨some "A", "z"⟩]⟩]⟩]⟩ (by decide)⟩

/-! ## Claim theorems (part 2) -/

/-- Claim C4: in a document with two or more tables named `X`,
`FindTableElement X` returns the first such element in document order, and
still does so (returning the same, unchanged element) after an arbitrary
mutation of the rows of any later table with the same name. -/
theorem c4_first_match (d : Doc) (X : String) (i j : Nat) (ti tj : Table)
    (f : List Row → List Row)
    (hi : d.tables[i]? = some ti) (hti : attrOf ti.name = X)
    (hfirst : ∀ k tk, k < i → d.tables[k]? = some tk → attrOf tk.name ≠ X)
    (hij : i < j) (hj : d.tables[j]? = some tj) (_htj : attrOf tj.name = X) :
    FindTableElement d X = some ti ∧
    FindTableElement (mutateRowsAt d j f) X = some ti := by
  have hp : (fun t => attrOf t.name == X) ti = true := by simp [hti]
  have hfirstp : ∀ k tk, k < i → d.tables[k]? = some tk →
      (fun t => attrOf t.name == X) tk = false := by
    intro k tk hk hkk
    simpa using hfirst k tk hk hkk
  have hfind : FindTableIdx d.tables X = some i :=
    findTableIdxAux_first _ _ i ti hi hp hfirstp
  constructor
  · rw [FindTableElement, hfind]
    exact hi
  · have hmut : mutateRowsAt d j f =
        setTableAt d j { tj with rows := f tj.rows } := by
      rw [mutateRowsAt, hj]
    have htabs : (mutateRowsAt d j f).tables =
        d.tables.set j { tj with rows := f tj.rows } := by
      rw [hmut, setTableAt]
    have hgi : (mutateRowsAt d j f).tables[i]? = some ti := by
      rw [htabs, List.getElem?_set_ne (by omega)]
      exact hi
    have hgk : ∀ k tk, k < i → (mutateRowsAt d j f).tables[k]? = some tk →
        (fun t => attrOf t.name == X) tk = false := by
      intro k tk hk hkk
      rw [htabs, List.getElem?_set_ne (by omega)] at hkk
      simpa using hfirst k tk hk hkk
    have hfind2 : FindTableIdx (mutateRowsAt d j f).tables X = some i :=
      findTableIdxAux_first _ _ i ti hgi hp hgk
    rw [FindTableElement, hfind2]
    exact hgi

/-- Concrete instance of `c4_first_match`. -/
theorem c4_first_match_witness :
    FindTableElement ⟨"db", [⟨some "X", [⟨[⟨some "A", "1"⟩]⟩]⟩, ⟨some "X", [⟨[⟨some "B", "2"⟩]⟩]⟩]⟩ "X" =
      some ⟨some "X", [⟨[⟨some "A", "1"⟩]⟩]⟩ ∧
    FindTableElement
      (mutateRowsAt ⟨"db", [⟨some "X", [⟨[⟨some "A", "1"⟩]⟩]⟩, ⟨some "X", [⟨[⟨some "B", "2"⟩]⟩]⟩]⟩ 1
        (fun _ => [])) "X" =
      some ⟨some "X", [⟨[⟨some "A", "1"⟩]⟩]⟩ :=
  c4_first_match ⟨"db", [⟨some "X", [⟨[⟨some "A", "1"⟩]⟩]⟩, ⟨some "X", [⟨[⟨some "B", "2"⟩]⟩]⟩]⟩ "X"
    0 1 ⟨some "X", [⟨[⟨some "A", "1"⟩]⟩]⟩ ⟨some "X", [⟨[⟨some "B", "2"⟩]⟩]⟩ (fun _ => [])
    (by decide) (by decide) (by intro k tk hk hkk; omega) (by decide) (by decide) (by decide)

/-- Claim C7: `DeleteRowFromTable` with index `-1` or index equal to the
current row count fails and leaves the session (hence the table) unchanged,
while index `0` on a non-empty table succeeds, leaves the table with
exactly the tail of its former row list (one row fewer, remaining rows in
order with unchanged contents). -/
theorem c7_delete_row_bounds (w : XMLWorker) (d : Doc) (X : String) (i : Nat) (t : Table)
    (hld : w.FileLoaded = true) (hdoc : w.XmlDocument = some d) (hX : X.isEmpty = false)
    (hfind : FindTableIdx d.tables X = some i) (hit : d.tables[i]? = some t) :
    DeleteRowFromTable w X (-1) = (false, w) ∧
    DeleteRowFromTable w X (t.rows.length : Int) = (false, w) ∧
    (t.rows ≠ [] →
      (DeleteRowFromTable w X 0).1 = true ∧
      (DeleteRowFromTable w X 0).2 =
        { w with XmlDocument := some (setTableAt d i { t with rows := t.rows.tail }) } ∧
      t.rows.tail.length = t.rows.length - 1) := by
  refine ⟨?_, ?_, ?_⟩
  · rw [DeleteRowFromTable, if_pos (by simp)]
  · rw [DeleteRowFromTable, if_neg (by simp [hld, hX]), hdoc]
    dsimp only
    rw [hfind]
    dsimp only
    rw [hit]
    dsimp only
    rw [if_pos (le_refl _)]
  · intro hne
    have hlen : 0 < t.rows.length := List.length_pos.mpr hne
    have hcalc : DeleteRowFromTable w X 0 = (true, { w with XmlDocument := some (setTableAt d i { t with rows := t.rows.eraseIdx (Int.toNat 0) }) }) := by
      rw [DeleteRowFromTable, if_neg (by simp [hld, hX]), hdoc]
      dsimp only
      rw [hfind]
      dsimp only
      rw [hit]
      dsimp only
      rw [if_neg (by omega)]
    rw [hcalc]
    refine ⟨rfl, ?_, ?_⟩
    · simp [Int.toNat, List.eraseIdx_zero]
    · simp [List.length_tail]

/-- Claim C9: with a document loaded and a table name that matches no
table element, `LoadTableData`, `AddRowToTable`, `DeleteRowFromTable` and
`UpdateCompleteTable` all return `false` and leave both the session state
(including the document) and the caller's grid unchanged. -/
theorem c9_missing_table_noop (w : XMLWorker) (d : Doc) (X : String) (g : Grid)
    (rowData : List String) (idx : Int)
    (hld : w.FileLoaded = true) (hdoc : w.XmlDocument = some d)
    (habs : ∀ t ∈ d.tables, attrOf t.name ≠ X) :
    LoadTableData w X (some g) = (false, some g) ∧
    AddRowToTable w X rowData = (false, w) ∧
    DeleteRowFromTable w X idx = (false, w) ∧
    UpdateCompleteTable w X (some g) = (false, w) := by
  have hnone : FindTableIdx d.tables X = none :=
    findTableIdxAux_none _ _ (fun t ht => by simpa using habs t ht)
  by_cases hX : X.isEmpty
  · refine ⟨?_, ?_, ?_, ?_⟩
    · rw [LoadTableData]
      dsimp only
      rw [if_pos (by simp [hX])]
    · rw [AddRowToTable, if_pos (by simp [hX])]
    · rw [DeleteRowFromTable, if_pos (by simp [hX])]
    · rw [UpdateCompleteTable]
      dsimp only
      rw [if_pos (by simp [hX])]
  · refine ⟨?_, ?_, ?_, ?_⟩
    · rw [LoadTableData]
      dsimp only
      rw [if_neg (by simp [hld, hX]), hdoc]
      dsimp only
      rw [FindTableElement, hnone]
    · rw [AddRowToTable, if_neg (by simp [hld, hX]), hdoc]
      dsimp only
      rw [hnone]
    · rw [DeleteRowFromTable]
      by_cases hidx : idx < 0
      · rw [if_pos (by simp [hidx])]
      · rw [if_neg (by simp [hld, hX, hidx]), hdoc]
        dsimp only
        rw [hnone]
    · rw [UpdateCompleteTable]
      dsimp only
      rw [if_neg (by simp [hld, hX]), hdoc]
      dsimp only
      rw [hnone]

/-- Claim C10: adding a row to a loaded table that has zero rows succeeds
and appends a row element with zero cells — the header list derived from
the absent first row is empty, so all supplied values are discarded — and
the table's extracted headers remain empty afterwards. -/
theorem c10_add_row_empty_table (w : XMLWorker) (d : Doc) (X : String) (i : Nat) (t : Table)
    (rowData : List String)
    (hld : w.FileLoaded = true) (hdoc : w.XmlDocument = some d) (hX : X.isEmpty = false)
    (hfind : FindTableIdx d.tables X = some i) (hit : d.tables[i]? = some t)
    (hempty : t.rows = []) (_hnonempty : rowData ≠ []) :
    (AddRowToTable w X rowData).1 = true ∧
    (AddRowToTable w X rowData).2 =
      { w with XmlDocument := some (setTableAt d i { t with rows := [⟨[]⟩] }) } ∧
    ExtractColumnHeaders { t with rows := [(⟨[]⟩ : Row)] } = [] := by
  have hheaders : ExtractColumnHeaders t = [] := by
    rw [ExtractColumnHeaders, hempty]
  have hcalc : AddRowToTable w X rowData = (true, { w with XmlDocument := some (setTableAt d i { t with rows := t.rows ++ [CreateRowElement rowData (ExtractColumnHeaders t)] }) }) := by
    rw [AddRowToTable, if_neg (by simp [hld, hX]), hdoc]
    dsimp only
    rw [hfind]
    dsimp only
    rw [hit]
  rw [hcalc]
  refine ⟨rfl, ?_, ?_⟩
  · rw [hheaders, hempty]
    rfl
  · rw [ExtractColumnHeaders]
    rfl

/-- Concrete instance of `c7_delete_row_bounds`. -/
theorem c7_delete_row_bounds_witness :
    DeleteRowFromTable sampleWorker "T" (-1) = (false, sampleWorker) ∧
    DeleteRowFromTable sampleWorker "T" ((sampleTable.rows.length : Int)) = (false, sampleWorker) ∧
    (sampleTable.rows ≠ [] →
      (DeleteRowFromTable sampleWorker "T" 0).1 = true ∧
      (DeleteRowFromTable sampleWorker "T" 0).2 =
        { sampleWorker with XmlDocument := some (setTableAt sampleDoc 0 { sampleTable with rows := sampleTable.rows.tail }) } ∧
      sampleTable.rows.tail.length = sampleTable.rows.length - 1) :=
  c7_delete_row_bounds sampleWorker sampleDoc "T" 0 sampleTable (by decide) (by decide)
    (by decide) (by decide) (by decide)

/-- Concrete instance of `c9_missing_table_noop`. -/
theorem c9_missing_table_noop_witness :
    LoadTableData sampleWorker "Z" (some sampleGrid) = (false, some sampleGrid) ∧
    AddRowToTable sampleWorker "Z" ["a"] = (false, sampleWorker) ∧
    DeleteRowFromTable sampleWorker "Z" 0 = (false, sampleWorker) ∧
    UpdateCompleteTable sampleWorker "Z" (some sampleGrid) = (false, sampleWorker) :=
  c9_missing_table_noop sampleWorker sampleDoc "Z" sampleGrid ["a"] 0 (by decide) (by decide)
    (by decide)

/-- Concrete instance of `c10_add_row_empty_table`. -/
theorem c10_add_row_empty_table_witness :
    (AddRowToTable sampleWorkerEmptyTable "E" ["v1", "v2"]).1 = true ∧
    (AddRowToTable sampleWorkerEmptyTable "E" ["v1", "v2"]).2 =
      { sampleWorkerEmptyTable with XmlDocument := some (setTableAt sampleDocEmptyTable 0 { (⟨some "E", []⟩ : Table) with rows := [⟨[]⟩] }) } ∧
    ExtractColumnHeaders { (⟨some "E", []⟩ : Table) with rows := [(⟨[]⟩ : Row)] } = [] :=
  c10_add_row_empty_table sampleWorkerEmptyTable sampleDocEmptyTable "E" 0 ⟨some "E", []⟩
    ["v1", "v2"] (by decide) (by decide) (by decide) (by decide) (by decide) (by decide)
    (by decide)

/-- Claim C1 as stated is false: after a successful open, a failed re-open
on malformed XML does not leave the session state untouched — the
in-memory document is cleared (Qt's `setContent` clears the document
before parsing), so the resulting state differs from the prior one. -/
theorem c1_counterexample :
    (LoadXMLFileQt initialWorker "a.xml"
      (some "<db><table name=\"T\"><row><cell name=\"A\">x</cell></row></table></db>")).1 = true ∧
    (LoadXMLFileQt ((LoadXMLFileQt initialWorker "a.xml"
      (some "<db><table name=\"T\"><row><cell name=\"A\">x</cell></row></table></db>")).2.1)
      "b.xml" (some "<bad")).1 = false ∧
    (LoadXMLFileQt ((LoadXMLFileQt initialWorker "a.xml"
      (some "<db><table name=\"T\"><row><cell name=\"A\">x</cell></row></table></db>")).2.1)
      "b.xml" (some "<bad")).2.1 ≠
    (LoadXMLFileQt initialWorker "a.xml"
      (some "<db><table name=\"T\"><row><cell name=\"A\">x</cell></row></table></db>")).2.1 := by
  refine ⟨by decide, by decide, by decide⟩

/-- Claim C1, amended: a failed `LoadXMLFile` leaves the table-name
snapshot, the current file path and the loaded flag untouched; the
in-memory document is either untouched or cleared to the empty document —
and the failures that happen before parsing (empty path, unreadable file)
leave the whole state untouched. -/
theorem c1_failed_load_state (parse : String → SetContentResult) (w : XMLWorker)
    (filePath : String) (file : Option String)
    (hfail : (LoadXMLFile parse w filePath file).1 = false) :
    (LoadXMLFile parse w filePath file).2.1.CurrentFilePath = w.CurrentFilePath ∧
    (LoadXMLFile parse w filePath file).2.1.AvailableTableNames = w.AvailableTableNames ∧
    (LoadXMLFile parse w filePath file).2.1.FileLoaded = w.FileLoaded ∧
    ((LoadXMLFile parse w filePath file).2.1.XmlDocument = w.XmlDocument ∨
      (LoadXMLFile parse w filePath file).2.1.XmlDocument = none) ∧
    (filePath.isEmpty = true ∨ file = none → (LoadXMLFile parse w filePath file).2.1 = w) := by
  by_cases hp : filePath.isEmpty
  · rw [LoadXMLFile.eq_def, if_pos hp]
    exact ⟨rfl, rfl, rfl, Or.inl rfl, fun _ => rfl⟩
  · cases file with
    | none =>
      rw [LoadXMLFile.eq_def, if_neg hp]
      exact ⟨rfl, rfl, rfl, Or.inl rfl, fun _ => rfl⟩
    | some content =>
      cases hparse : parse content with
      | err l c m =>
        rw [LoadXMLFile.eq_def, if_neg hp]
        dsimp only
        rw [hparse]
        refine ⟨rfl, rfl, rfl, Or.inr rfl, ?_⟩
        rintro (h | h)
        · exact absurd h hp
        · exact absurd h (by simp)
      | ok dnew =>
        exfalso
        rw [LoadXMLFile.eq_def, if_neg hp] at hfail
        dsimp only at hfail
        rw [hparse] at hfail
        simp [ValidateXMLStructure] at hfail

/-- Concrete instance of `c1_failed_load_state`. -/
theorem c1_failed_load_state_witness :
    (LoadXMLFileQt sampleWorker "b.xml" (some "<bad")).1 = false ∧
    ((LoadXMLFileQt sampleWorker "b.xml" (some "<bad")).2.1.CurrentFilePath = sampleWorker.CurrentFilePath ∧
    (LoadXMLFileQt sampleWorker "b.xml" (some "<bad")).2.1.AvailableTableNames = sampleWorker.AvailableTableNames ∧
    (LoadXMLFileQt sampleWorker "b.xml" (some "<bad")).2.1.FileLoaded = sampleWorker.FileLoaded ∧
    ((LoadXMLFileQt sampleWorker "b.xml" (some "<bad")).2.1.XmlDocument = sampleWorker.XmlDocument ∨
      (LoadXMLFileQt sampleWorker "b.xml" (some "<bad")).2.1.XmlDocument = none) ∧
    (("b.xml" : String).isEmpty = true ∨ (some "<bad" : Option String) = none →
      (LoadXMLFileQt sampleWorker "b.xml" (some "<bad")).2.1 = sampleWorker)) :=
  ⟨by decide, c1_failed_load_state qtSetContent sampleWorker "b.xml" (some "<bad") (by decide)⟩

/-- Claim C3 as stated is false: the parser-reported line/column/message
are not carried in the value returned to the caller — two parses failing
with entirely different reported positions and messages produce identical
caller-visible results (the same `false` flag and the same session
state). -/
theorem c3_counterexample :
    SetContentResult.err 10 4 "alpha" ≠ SetContentResult.err 99 7 "beta" ∧
    (LoadXMLFile (fun _ => SetContentResult.err 10 4 "alpha") sampleWorker "f.xml" (some "junk")).1 = false ∧
    (LoadXMLFile (fun _ => SetContentResult.err 10 4 "alpha") sampleWorker "f.xml" (some "junk")).1 =
      (LoadXMLFile (fun _ => SetContentResult.err 99 7 "beta") sampleWorker "f.xml" (some "junk")).1 ∧
    (LoadXMLFile (fun _ => SetContentResult.err 10 4 "alpha") sampleWorker "f.xml" (some "junk")).2.1 =
      (LoadXMLFile (fun _ => SetContentResult.err 99 7 "beta") sampleWorker "f.xml" (some "junk")).2.1 := by
  refine ⟨by decide, by decide, by decide, by decide⟩

/-- Claim C3, amended: on malformed input `LoadXMLFile` fails, and the
parser's reported line, column and message are formatted verbatim into the
`qDebug` diagnostic log; the caller-visible return value is only the
`false` flag and the session state with a cleared document. -/
theorem c3_error_reporting (parse : String → SetContentResult) (w : XMLWorker)
    (filePath : String) (content : String) (l c : Nat) (m : String)
    (hp : filePath.isEmpty = false) (hparse : parse content = .err l c m) :
    (LoadXMLFile parse w filePath (some content)).1 = false ∧
    (LoadXMLFile parse w filePath (some content)).2.1 = { w with XmlDocument := none } ∧
    ("Error: XML parsing failed at line " ++ toString l ++ " column " ++ toString c ++ " : " ++ m)
      ∈ (LoadXMLFile parse w filePath (some content)).2.2 := by
  rw [LoadXMLFile.eq_def, if_neg (by simp [hp])]
  dsimp only
  rw [hparse]
  exact ⟨rfl, rfl, by simp⟩

/-- Concrete instance of `c3_error_reporting`. -/
theorem c3_error_reporting_witness :
    (LoadXMLFile (fun _ => SetContentResult.err 12 7 "tag mismatch") sampleWorker "f.xml" (some "junk")).1 = false ∧
    (LoadXMLFile (fun _ => SetContentResult.err 12 7 "tag mismatch") sampleWorker "f.xml" (some "junk")).2.1 = { sampleWorker with XmlDocument := none } ∧
    ("Error: XML parsing failed at line " ++ toString 12 ++ " column " ++ toString 7 ++ " : " ++ "tag mismatch")
      ∈ (LoadXMLFile (fun _ => SetContentResult.err 12 7 "tag mismatch") sampleWorker "f.xml" (some "junk")).2.2 :=
  c3_error_reporting (fun _ => SetContentResult.err 12 7 "tag mismatch") sampleWorker "f.xml"
    "junk" 12 7 "tag mismatch" (by decide) rfl

end XT
